import Mathlib

/-!
Verification of the delta_cmd impact-resolution engine (src/main.rs,
src/cargo.rs) against its natural-language specification.

Shallow embedding conventions:
* Filesystem paths are modelled as lists of path components
  (`Path := List String`), with an absolute path marked by a leading `"/"`
  component.  Rust's `Path::starts_with` is component-wise prefix testing
  and `Path::join` replaces the base when the argument is absolute; both
  are modelled accordingly.
* The `radix_trie::Trie<PathBuf, Package>` is modelled as an association
  list of `(directory, Package)` entries; `get_ancestor_value` returns the
  value stored at the longest key that is a prefix of the query.
* `BTreeSet` values are modelled as `Finset`s (their iteration order is
  irrelevant to the properties below).
* The `while changed_packages_previous != changed_packages.len()` loop of
  `main` (main.rs:168-185) is modelled by fuelled iteration
  (`closure_go`); a theorem below shows the chosen fuel reaches the loop's
  exit condition, i.e. the loop terminates.
* External collaborators (git diff extraction, cargo metadata, the
  minijinja rendering engine, shell word splitting, process spawning) are
  abstracted as inputs, exactly as the spec declares them out of scope.
-/

namespace DeltaCmd

/-- A filesystem path as a list of components; `["/", "r", "A"]` models
the absolute path `/r/A`, `["C", "src", "lib.rs"]` the relative path
`C/src/lib.rs`. -/
abbrev Path := List String

/-- Whether a path is absolute (starts with the root component). -/
def pathAbsolute (p : Path) : Bool := p.headD "" = "/"

/-- Model of Rust `Path::join`: if the argument is absolute it replaces
the base, otherwise it is appended component-wise. -/
def pathJoin (a b : Path) : Path := if pathAbsolute b then b else a ++ b

/-- Model of Rust `Path::parent` (as used on a manifest file path,
cargo.rs:41-43): drop the last component. -/
def pathParent (p : Path) : Path := p.dropLast

/-- The `Package` record of src/cargo.rs:5-10. -/
structure Package where
  name : String
  manifest : Path
  dependencies : List Path
deriving DecidableEq

/-- The `Trie<PathBuf, Package>` of src/cargo.rs, modelled as an
association list from package directory to `Package`. -/
abbrev PackageTrie := List (Path × Package)

/-- Model of `Trie::insert`: replace the entry at an existing key,
otherwise add a new entry. -/
def trie_insert (t : PackageTrie) (key : Path) (value : Package) : PackageTrie :=
  if t.any (fun e => e.1 = key) then
    t.map (fun e => if e.1 = key then (key, value) else e)
  else t ++ [(key, value)]

/-- Auxiliary scan selecting the entry with the longest key. -/
def pick_longest : Option (Path × Package) → List (Path × Package) → Option (Path × Package)
  | best, [] => best
  | none, e :: rest => pick_longest (some e) rest
  | some b, e :: rest =>
    if b.1.length < e.1.length then pick_longest (some e) rest
    else pick_longest (some b) rest

/-- Model of `radix_trie`'s `get_ancestor_value` (used at main.rs:162 and
main.rs:179): the value stored at the longest key that is an ancestor
(component-wise prefix) of the query, or `none` if no key is. -/
def get_ancestor_value (t : PackageTrie) (p : Path) : Option Package :=
  (pick_longest none (t.filter (fun e => e.1.isPrefixOf p))).map Prod.snd

/-- The `check_path` helper of src/cargo.rs:12-17: a dependency path is
kept when it exists and starts with the workspace root. -/
def check_path (root : Path) (path : Option Path) : Bool :=
  match path with
  | some p => root.isPrefixOf p
  | none => false

/-- A declared dependency as reported by the external manifest-metadata
provider (`cargo_metadata::Dependency`): `path` is present exactly for
local path dependencies. -/
structure RawDependency where
  path : Option Path
deriving DecidableEq

/-- A raw package record as reported by the external manifest-metadata
provider (`cargo_metadata::Package`, restricted to the fields read by
src/cargo.rs). -/
structure RawPackage where
  name : String
  manifest_path : Path
  dependencies : List RawDependency
deriving DecidableEq

/-- One iteration of the `find_packages` loop body, src/cargo.rs:24-48:
filter the member's dependencies by `check_path` against the workspace
root, unwrap them to their paths, and insert the resulting `Package`
under its manifest's parent directory. -/
def find_packages_step (root : Path) (packages : PackageTrie) (package : RawPackage) :
    PackageTrie :=
  let dependencies :=
    ((package.dependencies.filter (fun x => check_path root x.path)).map
      (fun x => x.path.getD []))
  let pack : Package :=
    { name := package.name
      manifest := package.manifest_path
      dependencies := dependencies }
  trie_insert packages (pathParent package.manifest_path) pack

/-- The Package Graph Builder, src/cargo.rs:19-51 (`find_packages`), with
the external `cargo metadata` invocation abstracted as the list of raw
workspace-member records it returns. -/
def find_packages (root : Path) (metadata : List RawPackage) : PackageTrie :=
  metadata.foldl (find_packages_step root) []

/-- The state of `main`'s resolution: `changed_packages` (a
`BTreeSet<PathBuf>`) and `end_package_names` (a `BTreeSet<&str>`),
main.rs:157-159. -/
abbrev ResolveState := Finset Path × Finset String

/-- The seeding loop of main.rs:161-166: for each changed file, look up
its owner in the trie at `root.join(file)`; if found, insert
`root.join(file)` into `changed_packages` and the owner's name into
`end_package_names`; otherwise drop the file. -/
def seed_changes (packages : PackageTrie) (root : Path) (considered_files : List Path) :
    ResolveState :=
  considered_files.foldl
    (fun st file =>
      match get_ancestor_value packages (pathJoin root file) with
      | some package => (insert (pathJoin root file) st.1, insert package.name st.2)
      | none => st)
    (∅, ∅)

/-- One package's step inside the propagation scan, main.rs:173-184: if
some declared dependency of the package is in `changed_packages`, resolve
`root.join(key)`'s owner and, if found, insert `root.join(key)` and the
owner's name. -/
def propagate_step (packages : PackageTrie) (root : Path) (st : ResolveState)
    (e : Path × Package) : ResolveState :=
  if e.2.dependencies.any (fun x => decide (x ∈ st.1)) then
    match get_ancestor_value packages (pathJoin root e.1) with
    | some package => (insert (pathJoin root e.1) st.1, insert package.name st.2)
    | none => st
  else st

/-- One full pass of the propagation loop over all trie entries,
main.rs:173-184. -/
def propagate_pass (packages : PackageTrie) (root : Path) (st : ResolveState) : ResolveState :=
  packages.foldl (propagate_step packages root) st

/-- The set of root-joined package directory keys: the only paths the
propagation pass can ever add to `changed_packages`. -/
def package_dir_keys (packages : PackageTrie) (root : Path) : Finset Path :=
  (packages.map (fun e => pathJoin root e.1)).toFinset

/-- The `while changed_packages_previous != changed_packages.len()` loop
of main.rs:168-185, modelled with fuel (the theorem
`propagation_loop_terminates` shows the fuel used by `resolve_changed`
reaches the loop's exit condition). -/
def closure_go (packages : PackageTrie) (root : Path) :
    Nat → Nat → ResolveState → ResolveState
  | 0, _, st => st
  | fuel + 1, changed_packages_previous, st =>
    if changed_packages_previous = st.1.card then st
    else closure_go packages root fuel st.1.card (propagate_pass packages root st)

/-- The complete impact resolution of main.rs:157-185: seed from the
changed files, then iterate propagation passes until a pass leaves the
size of `changed_packages` unchanged. -/
def resolve_changed (packages : PackageTrie) (root : Path) (considered_files : List Path) :
    ResolveState :=
  let st := seed_changes packages root considered_files
  closure_go packages root ((package_dir_keys packages root \ st.1).card + 2) 0 st

/-- The `generate_exclude_list` function of main.rs:82-90: every package
name in the graph that is not in the included (affected) set. -/
def generate_exclude_list (packages : List Package) (included_packages : Finset String) :
    Finset String :=
  ((packages.filter (fun x => !decide (x.name ∈ included_packages))).map
    (fun x => x.name)).toFinset

/-- Errors surfaced by command generation (main.rs:92-136): the
`anyhow::bail!("Unsupported variable ...")` at main.rs:121 and the
`.context("No program name")` at main.rs:128. -/
inductive CmdError where
  | unsupportedVariable (name : String)
  | noProgramName
deriving DecidableEq

/-- The strict allow-list of template variable names recognised by the
match at main.rs:105-122. -/
def allowed_variables : List String := ["packages", "excludes", "args"]

/-- The variable-binding loop of main.rs:104-123: walk the template's
referenced variable names, binding each allowed one and failing with
`unsupportedVariable` on the first name outside the allow-list. -/
def bind_variables : List String → Except CmdError (List String)
  | [] => .ok []
  | v :: rest =>
    if v ∈ allowed_variables then
      match bind_variables rest with
      | .ok vs => .ok (v :: vs)
      | .error e => .error e
    else .error (.unsupportedVariable v)

/-- A constructed `std::process::Command`: program name plus argument
vector (main.rs:127-135). -/
structure Command where
  program : String
  args : List String
deriving DecidableEq

/-- The `generate_command` function of main.rs:92-136.  The external
minijinja engine and `shell_words::split` are abstracted:
`template_variables` is the set of names the parsed template references
(`undeclared_variables`, main.rs:102) and `rendered_tokens` is the
shell-split rendered output (main.rs:126-127).  The variable allow-list
check and the empty-command check are the repository's own logic. -/
def generate_command (template_variables : List String) (rendered_tokens : List String) :
    Except CmdError Command :=
  match bind_variables template_variables with
  | .error e => .error e
  | .ok _ =>
    match rendered_tokens with
    | [] => .error .noProgramName
    | exe :: rest => .ok { program := exe, args := rest }

/-- The built-in template constant of main.rs:15. -/
def CARGO_TEST_TEMPLATE : String :=
  "cargo test \x7b% for pkg in packages %\x7d -p \x7b\x7b pkg \x7d\x7d \x7b% endfor %\x7d \x7b% for arg in args %\x7d \x7b\x7b arg \x7d\x7d \x7b% endfor %\x7d"

/-- The built-in template constant of main.rs:16. -/
def CARGO_NEXTEST_TEMPLATE : String :=
  "cargo nextest \x7b% for pkg in packages %\x7d -p \x7b\x7b pkg \x7d\x7d \x7b% endfor %\x7d \x7b% for arg in args %\x7d \x7b\x7b arg \x7d\x7d \x7b% endfor %\x7d"

/-- The built-in template constant of main.rs:17. -/
def CARGO_BUILD_TEMPLATE : String :=
  "cargo build \x7b% for pkg in packages %\x7d -p \x7b\x7b pkg \x7d\x7d \x7b% endfor %\x7d \x7b% for arg in args %\x7d \x7b\x7b arg \x7d\x7d \x7b% endfor %\x7d"

/-- The built-in template constant of main.rs:18 (note: its text invokes
`cargo build`, not `cargo bench`). -/
def CARGO_BENCH_TEMPLATE : String :=
  "cargo build \x7b% for pkg in packages %\x7d -p \x7b\x7b pkg \x7d\x7d \x7b% endfor %\x7d \x7b% for arg in args %\x7d \x7b\x7b arg \x7d\x7d \x7b% endfor %\x7d"

/-- The `RequiredArgs` CLI record of main.rs:48-59. -/
structure RequiredArgs where
  input : Option Path
  no_run : Bool
  args : List String
deriving DecidableEq

/-- The `Args` CLI record of main.rs:70-80. -/
structure Args where
  command : Option String
  required : RequiredArgs
deriving DecidableEq

/-- The `RunCommand` subcommand enum of main.rs:20-27. -/
inductive RunCommand where
  | Test (a : RequiredArgs)
  | Nextest (a : RequiredArgs)
  | Build (a : RequiredArgs)
  | Bench (a : RequiredArgs)
  | Run (a : Args)
deriving DecidableEq

/-- The `RunCommand::command` method of main.rs:37-45: the template each
subcommand renders, if any. -/
def RunCommand.command : RunCommand → Option String
  | .Test _ => some CARGO_TEST_TEMPLATE
  | .Nextest _ => some CARGO_NEXTEST_TEMPLATE
  | .Build _ => some CARGO_BUILD_TEMPLATE
  | .Bench _ => some CARGO_BENCH_TEMPLATE
  | .Run a => a.command

/-- Outcome of the external `Command::status()` call at main.rs:199:
either the child was spawned and exited with some status, or spawning
failed with an OS error. -/
inductive SpawnOutcome where
  | exited (status : Nat)
  | spawnError (msg : String)
deriving DecidableEq

/-- The execution tail of `main`, main.rs:196-200 and main.rs:214: in
dry-run mode the command is printed; otherwise `cmd.status()?;` runs the
child, propagating only a spawn error via `?` and discarding the child's
`ExitStatus` on success, after which `main` returns `Ok(())`. -/
def run_generated_command (no_run : Bool) (outcome : SpawnOutcome) : Except String Unit :=
  if no_run then .ok ()
  else
    match outcome with
    | .exited _ => .ok ()
    | .spawnError e => .error e

/-- The process exit code induced by `fn main() -> anyhow::Result<()>`:
0 on `Ok(())`, 1 on any propagated error. -/
def process_exit_code : Except String Unit → Nat
  | .ok _ => 0
  | .error _ => 1

/-- Workspace root of the 3-level dependency-chain scenario, `/r`. -/
def chain_root : Path := ["/", "r"]

/-- Package `C` of the chain scenario: directory `/r/C`, no workspace
dependencies. -/
def chain_pkgC : Package :=
  { name := "C", manifest := ["/", "r", "C", "Cargo.toml"], dependencies := [] }

/-- Package `B` of the chain scenario: directory `/r/B`, depending on
`C`'s directory `/r/C`. -/
def chain_pkgB : Package :=
  { name := "B", manifest := ["/", "r", "B", "Cargo.toml"],
    dependencies := [["/", "r", "C"]] }

/-- Package `A` of the chain scenario: directory `/r/A`, depending on
`B`'s directory `/r/B`. -/
def chain_pkgA : Package :=
  { name := "A", manifest := ["/", "r", "A", "Cargo.toml"],
    dependencies := [["/", "r", "B"]] }

/-- The package trie of the chain scenario A -> B -> C. -/
def chain_trie : PackageTrie :=
  [(["/", "r", "A"], chain_pkgA), (["/", "r", "B"], chain_pkgB),
   (["/", "r", "C"], chain_pkgC)]

/-- The changed-file list of the chain scenario: exactly one changed file
`C/src/lib.rs`, owned by package `C`. -/
def chain_files : List Path := [["C", "src", "lib.rs"]]

/-- A nested-roots ownership trie for exercising longest-ancestor lookup:
`/root/pkgA` and `/root/pkgA/sub` are both indexed package roots. -/
def nested_trie : PackageTrie :=
  [(["/", "root", "pkgA"], chain_pkgA), (["/", "root", "pkgA", "sub"], chain_pkgB)]

/-- A raw workspace-member record declaring one workspace-internal path
dependency, one path dependency outside the root, and one registry
dependency (no path). -/
def sample_raw_pkg : RawPackage :=
  { name := "A", manifest_path := ["/", "r", "A", "Cargo.toml"],
    dependencies := [{ path := some ["/", "r", "B"] },
                     { path := some ["/", "elsewhere", "D"] },
                     { path := none }] }

/-- The graph entry `find_packages` builds from `sample_raw_pkg` under
root `/r`: keyed by the manifest's parent, keeping only the internal
dependency. -/
def sample_pkg_entry : Path × Package :=
  (["/", "r", "A"],
   { name := "A", manifest := ["/", "r", "A", "Cargo.toml"],
     dependencies := [["/", "r", "B"]] })

theorem closure_go_exit (packages : PackageTrie) (root : Path) :
    ∀ (fuel prev : Nat) (st : ResolveState), prev = st.1.card →
      closure_go packages root fuel prev st = st := by
  intro fuel
  cases fuel with
  | zero => intro prev st h; rfl
  | succ f => intro prev st h; simp [closure_go, h]

/-- Claim C7: for every workspace, an empty changed-file list yields an
empty affected set, and the closure loop exits at once (its guard
`0 != changed_packages.len()` is already false). -/
theorem empty_changed_files_empty_affected (packages : PackageTrie) (root : Path) :
    resolve_changed packages root [] = (∅, ∅) := by
  have hseed : seed_changes packages root [] = ((∅ : Finset Path), (∅ : Finset String)) := rfl
  simp only [resolve_changed, hseed]
  exact closure_go_exit packages root _ 0 _ (by simp)

/-- Claim C1 (code-bug evidence): on the 3-level chain A -> B -> C with
only C's file changed, the final affected-name set computed by `main` is
`{"C"}`, not `{"A", "B", "C"}`: seeding (main.rs:163) inserts the changed
file's path into `changed_packages`, but the propagation scan
(main.rs:174-177) tests the dependency *directories* for membership, so
the reverse-dependency closure never fires from the seeds. -/
theorem chain_dependency_not_propagated :
    (resolve_changed chain_trie chain_root chain_files).2 = {"C"} ∧
    "A" ∉ (resolve_changed chain_trie chain_root chain_files).2 ∧
    "B" ∉ (resolve_changed chain_trie chain_root chain_files).2 := by decide

/-- Claim C2 (code-bug evidence): seeding at main.rs:161-166 inserts
`root.join(file)` — the changed file's own path — into `changed_packages`
rather than the owning package's directory: after seeding the chain
scenario, `changed_packages` is `{/r/C/src/lib.rs}` and C's directory
`/r/C` is absent; an unowned changed file (`outside/x.rs`) contributes
nothing to either set. -/
theorem seeding_inserts_file_path_not_directory :
    seed_changes chain_trie chain_root (chain_files ++ [["outside", "x.rs"]]) =
      ({["/", "r", "C", "src", "lib.rs"]}, {"C"}) ∧
    ["/", "r", "C"] ∉ (seed_changes chain_trie chain_root chain_files).1 := by decide

/-- Claim C3 (counterexample): a child process that exits with status 1
does not make the tool exit with status 1 — `cmd.status()?;`
(main.rs:199) discards the `ExitStatus` on a successful spawn and `main`
returns `Ok(())`, so the tool's exit code is 0. -/
theorem child_exit_status_not_propagated :
    process_exit_code (run_generated_command false (.exited 1)) = 0 ∧ (0 : Nat) ≠ 1 := by
  exact ⟨rfl, by decide⟩

/-- Claim C3 (amended): when a command is executed (not dry-run), a
successfully spawned child — whatever its exit status — leaves the tool
exiting with status 0, while a spawn failure propagates as an error and
makes the tool exit nonzero. -/
theorem run_exit_status_behavior (s : Nat) (msg : String) :
    process_exit_code (run_generated_command false (.exited s)) = 0 ∧
    process_exit_code (run_generated_command false (.spawnError msg)) = 1 :=
  ⟨rfl, rfl⟩

/-- Claim C10: the Bench subcommand's built-in template is character-for-
character the Build subcommand's template, so it starts with the tokens
`cargo build` and not `cargo bench`. -/
theorem bench_template_is_build (a : RequiredArgs) :
    RunCommand.command (.Bench a) = some CARGO_BENCH_TEMPLATE ∧
    CARGO_BENCH_TEMPLATE = CARGO_BUILD_TEMPLATE ∧
    "cargo build".data.isPrefixOf CARGO_BENCH_TEMPLATE.data = true ∧
    "cargo bench".data.isPrefixOf CARGO_BENCH_TEMPLATE.data = false :=
  ⟨rfl, rfl, by decide, by decide⟩

theorem mem_generate_exclude_list (packages : List Package) (included : Finset String)
    (a : String) :
    a ∈ generate_exclude_list packages included ↔
      (∃ p ∈ packages, p.name = a) ∧ a ∉ included := by
  simp only [generate_exclude_list, List.mem_toFinset, List.mem_map, List.mem_filter]
  constructor
  · rintro ⟨p, ⟨hp, hnot⟩, rfl⟩
    simp only [Bool.not_eq_true', decide_eq_false_iff_not] at hnot
    exact ⟨⟨p, hp, rfl⟩, hnot⟩
  · rintro ⟨⟨p, hp, rfl⟩, hnot⟩
    refine ⟨p, ⟨hp, ?_⟩, rfl⟩
    simp only [Bool.not_eq_true', decide_eq_false_iff_not]
    exact hnot

/-- Claim C5: for any package graph and any affected-name set drawn from
its package names, the `excludes` binding and the affected set are
disjoint and their union is exactly the full package-name universe
(main.rs:82-90). -/
theorem excludes_packages_partition (packages : List Package) (included : Finset String)
    (h : included ⊆ (packages.map Package.name).toFinset) :
    Disjoint (generate_exclude_list packages included) included ∧
    generate_exclude_list packages included ∪ included =
      (packages.map Package.name).toFinset := by
  constructor
  · rw [Finset.disjoint_left]
    intro a ha hmem
    exact ((mem_generate_exclude_list packages included a).mp ha).2 hmem
  · ext a
    simp only [Finset.mem_union, mem_generate_exclude_list, List.mem_toFinset, List.mem_map]
    constructor
    · rintro (⟨⟨p, hp, rfl⟩, -⟩ | hin)
      · exact ⟨p, hp, rfl⟩
      · have := h hin
        simpa using this
    · rintro ⟨p, hp, rfl⟩
      by_cases hin : p.name ∈ included
      · exact Or.inr hin
      · exact Or.inl ⟨⟨p, hp, rfl⟩, hin⟩

/-- Witness for claim C5 on a concrete two-package graph with affected
set `{"a"}`. -/
theorem excludes_packages_partition_witness :
    Disjoint
      (generate_exclude_list
        [{ name := "a", manifest := [], dependencies := [] },
         { name := "b", manifest := [], dependencies := [] }] {"a"}) {"a"} ∧
    generate_exclude_list
        [{ name := "a", manifest := [], dependencies := [] },
         { name := "b", manifest := [], dependencies := [] }] {"a"} ∪ {"a"} =
      ([{ name := "a", manifest := [], dependencies := [] },
        { name := "b", manifest := [], dependencies := [] }].map Package.name).toFinset :=
  excludes_packages_partition
    [{ name := "a", manifest := [], dependencies := [] },
     { name := "b", manifest := [], dependencies := [] }] {"a"} (by decide)

theorem bind_variables_ok (l : List String) (h : ∀ v ∈ l, v ∈ allowed_variables) :
    ∃ vs, bind_variables l = .ok vs := by
  induction l with
  | nil => exact ⟨[], rfl⟩
  | cons v rest ih =>
    have hv : v ∈ allowed_variables := h v (by simp)
    obtain ⟨vs, hvs⟩ := ih (fun x hx => h x (by simp [hx]))
    exact ⟨v :: vs, by simp [bind_variables, hv, hvs]⟩

theorem bind_variables_err (l : List String) (h : ∃ v ∈ l, v ∉ allowed_variables) :
    ∃ s, bind_variables l = .error (.unsupportedVariable s) ∧
      s ∈ l ∧ s ∉ allowed_variables := by
  induction l with
  | nil => simp at h
  | cons v rest ih =>
    by_cases hv : v ∈ allowed_variables
    · obtain ⟨w, hw, hwn⟩ := h
      rcases List.mem_cons.mp hw with rfl | hwr
      · exact absurd hv hwn
      · obtain ⟨s, hs, hsl, hsn⟩ := ih ⟨w, hwr, hwn⟩
        exact ⟨s, by simp [bind_variables, hv, hs], by simp [hsl], hsn⟩
    · exact ⟨v, by simp [bind_variables, hv], by simp, hv⟩

/-- Claim C6: command generation over a template whose referenced
variable names include an identifier outside `packages`, `excludes`,
`args` fails with an error carrying that identifier and constructs no
command, while a template referencing only allowed names never produces
an unsupported-variable error (main.rs:102-123). -/
theorem generate_command_variable_allowlist
    (template_variables rendered_tokens : List String) :
    ((∃ v ∈ template_variables, v ∉ allowed_variables) →
      ∃ s, generate_command template_variables rendered_tokens =
          .error (.unsupportedVariable s) ∧
        s ∈ template_variables ∧ s ∉ allowed_variables) ∧
    ((∀ v ∈ template_variables, v ∈ allowed_variables) →
      ∀ s, generate_command template_variables rendered_tokens ≠
          .error (.unsupportedVariable s)) := by
  constructor
  · intro h
    obtain ⟨s, hs, hsl, hsn⟩ := bind_variables_err _ h
    exact ⟨s, by simp [generate_command, hs], hsl, hsn⟩
  · intro h s
    obtain ⟨vs, hvs⟩ := bind_variables_ok _ h
    simp only [generate_command, hvs]
    cases rendered_tokens <;> simp

/-- Witness for claim C6: the template variable `unknown` is rejected
with an error naming it, while a `packages`/`args` template is not. -/
theorem generate_command_variable_allowlist_witness :
    (∃ s, generate_command ["unknown"] ["cargo"] =
        .error (.unsupportedVariable s) ∧
      s ∈ ["unknown"] ∧ s ∉ allowed_variables) ∧
    (∀ s, generate_command ["packages", "args"] ["cargo", "test"] ≠
        .error (.unsupportedVariable s)) :=
  ⟨(generate_command_variable_allowlist ["unknown"] ["cargo"]).1 (by decide),
   (generate_command_variable_allowlist ["packages", "args"] ["cargo", "test"]).2 (by decide)⟩

theorem pick_longest_eq_none :
    ∀ (l : List (Path × Package)) (best : Option (Path × Package)),
      pick_longest best l = none ↔ best = none ∧ l = [] := by
  intro l
  induction l with
  | nil => intro best; cases best <;> simp [pick_longest]
  | cons e rest ih =>
    intro best
    cases best with
    | none => simp [pick_longest, ih]
    | some b => by_cases h : b.1.length < e.1.length <;> simp [pick_longest, h, ih]

theorem pick_longest_mem :
    ∀ (l : List (Path × Package)) (best : Option (Path × Package)) (e : Path × Package),
      pick_longest best l = some e → best = some e ∨ e ∈ l := by
  intro l
  induction l with
  | nil =>
    intro best e h
    exact Or.inl (by simpa [pick_longest] using h)
  | cons f rest ih =>
    intro best e h
    cases best with
    | none =>
      rcases ih (some f) e h with h1 | h1
      · obtain rfl := Option.some.inj h1
        exact Or.inr (List.mem_cons_self _ _)
      · exact Or.inr (List.mem_cons_of_mem _ h1)
    | some b =>
      by_cases hlt : b.1.length < f.1.length
      · simp only [pick_longest, hlt, if_true] at h
        rcases ih (some f) e h with h1 | h1
        · obtain rfl := Option.some.inj h1
          exact Or.inr (List.mem_cons_self _ _)
        · exact Or.inr (List.mem_cons_of_mem _ h1)
      · simp only [pick_longest, hlt, if_false] at h
        rcases ih (some b) e h with h1 | h1
        · exact Or.inl h1
        · exact Or.inr (List.mem_cons_of_mem _ h1)

theorem pick_longest_ge :
    ∀ (l : List (Path × Package)) (best : Option (Path × Package)) (e : Path × Package),
      pick_longest best l = some e →
        (∀ b, best = some b → b.1.length ≤ e.1.length) ∧
        ∀ x ∈ l, x.1.length ≤ e.1.length := by
  intro l
  induction l with
  | nil =>
    intro best e h
    have hbest : best = some e := by simpa [pick_longest] using h
    constructor
    · intro b hb
      rw [hbest] at hb
      obtain rfl := Option.some.inj hb
      exact le_refl _
    · intro x hx
      cases hx
  | cons f rest ih =>
    intro best e h
    cases best with
    | none =>
      have hrec := ih (some f) e h
      constructor
      · intro b hb
        cases hb
      · intro x hx
        rcases List.mem_cons.mp hx with rfl | hx
        · exact hrec.1 x rfl
        · exact hrec.2 x hx
    | some b =>
      by_cases hlt : b.1.length < f.1.length
      · simp only [pick_longest, hlt, if_true] at h
        have hrec := ih (some f) e h
        have hf : f.1.length ≤ e.1.length := hrec.1 f rfl
        constructor
        · intro b' hb'
          obtain rfl := Option.some.inj hb'
          exact le_of_lt (lt_of_lt_of_le hlt hf)
        · intro x hx
          rcases List.mem_cons.mp hx with rfl | hx
          · exact hf
          · exact hrec.2 x hx
      · simp only [pick_longest, hlt, if_false] at h
        have hrec := ih (some b) e h
        have hb : b.1.length ≤ e.1.length := hrec.1 b rfl
        constructor
        · intro b' hb'
          obtain rfl := Option.some.inj hb'
          exact hb
        · intro x hx
          rcases List.mem_cons.mp hx with rfl | hx
          · exact le_trans (Nat.le_of_not_lt hlt) hb
          · exact hrec.2 x hx

/-- Claim C4: ownership lookup returns the package stored at the longest
indexed directory that is an ancestor (component-wise prefix) of the
queried path — never a shallower one — and returns `none` exactly when no
indexed directory is an ancestor of the path. -/
theorem lookup_owner_longest_ancestor (t : PackageTrie) (p : Path) :
    (∀ pkg, get_ancestor_value t p = some pkg →
      ∃ k, (k, pkg) ∈ t ∧ k.isPrefixOf p = true ∧
        ∀ e ∈ t, e.1.isPrefixOf p = true → e.1.length ≤ k.length) ∧
    (get_ancestor_value t p = none ↔ ∀ e ∈ t, ¬(e.1.isPrefixOf p = true)) := by
  constructor
  · intro pkg h
    unfold get_ancestor_value at h
    rcases hmap : pick_longest none (t.filter fun e => e.1.isPrefixOf p) with - | ke
    · rw [hmap] at h; cases h
    · rw [hmap] at h
      have hpkg : ke.2 = pkg := Option.some.inj h
      rcases pick_longest_mem _ _ _ hmap with h1 | h1
      · cases h1
      · have hmem := List.mem_filter.mp h1
        refine ⟨ke.1, ?_, hmem.2, ?_⟩
        · rw [← hpkg]
          exact hmem.1
        · intro e he hpre
          exact (pick_longest_ge _ _ _ hmap).2 e (List.mem_filter.mpr ⟨he, hpre⟩)
  · unfold get_ancestor_value
    constructor
    · intro h e he hpre
      rcases hmap : pick_longest none (t.filter fun e => e.1.isPrefixOf p) with - | ke
      · have hnil := ((pick_longest_eq_none _ _).mp hmap).2
        have : e ∈ t.filter (fun e => e.1.isPrefixOf p) :=
          List.mem_filter.mpr ⟨he, hpre⟩
        rw [hnil] at this
        cases this
      · rw [hmap] at h; cases h
    · intro h
      have hnil : t.filter (fun e => e.1.isPrefixOf p) = [] := by
        rw [List.filter_eq_nil_iff]
        intro e he
        exact h e he
      rw [hnil]
      rfl

/-- Witness for claim C4 on the nested-roots trie: the file
`/root/pkgA/sub/file.rs` is owned by the package at the deeper indexed
root `/root/pkgA/sub`, the longest ancestor among the indexed
directories. -/
theorem lookup_owner_longest_ancestor_witness :
    ∃ k, (k, chain_pkgB) ∈ nested_trie ∧
      k.isPrefixOf ["/", "root", "pkgA", "sub", "file.rs"] = true ∧
      ∀ e ∈ nested_trie,
        e.1.isPrefixOf ["/", "root", "pkgA", "sub", "file.rs"] = true →
          e.1.length ≤ k.length :=
  (lookup_owner_longest_ancestor nested_trie
    ["/", "root", "pkgA", "sub", "file.rs"]).1 chain_pkgB (by decide)

theorem trie_insert_mem (t : PackageTrie) (key : Path) (value : Package)
    (e : Path × Package) (he : e ∈ trie_insert t key value) :
    e ∈ t ∨ e = (key, value) := by
  unfold trie_insert at he
  by_cases h : t.any (fun e => e.1 = key)
  · rw [if_pos h] at he
    obtain ⟨x, hx, hfx⟩ := List.mem_map.mp he
    by_cases hk : x.1 = key
    · simp only [hk, if_true] at hfx
      exact Or.inr hfx.symm
    · simp only [hk, if_false] at hfx
      exact Or.inl (hfx ▸ hx)
  · rw [if_neg h] at he
    rcases List.mem_append.mp he with h1 | h1
    · exact Or.inl h1
    · exact Or.inr (by simpa using h1)

theorem mem_filtered_deps (root : Path) (deps : List RawDependency) (p : Path) :
    p ∈ (deps.filter (fun x => check_path root x.path)).map (fun x => x.path.getD []) ↔
      ∃ d ∈ deps, d.path = some p ∧ root.isPrefixOf p = true := by
  constructor
  · intro h
    obtain ⟨d, hd, hdp⟩ := List.mem_map.mp h
    have hmem := List.mem_filter.mp hd
    cases hpath : d.path with
    | none => rw [hpath] at hmem; simp [check_path] at hmem
    | some q =>
      have hq : q = p := by rw [hpath] at hdp; simpa using hdp
      subst hq
      refine ⟨d, hmem.1, hpath, ?_⟩
      have := hmem.2
      rw [hpath] at this
      simpa [check_path] using this
  · rintro ⟨d, hd, hpath, hpre⟩
    refine List.mem_map.mpr ⟨d, List.mem_filter.mpr ⟨hd, ?_⟩, by simp [hpath]⟩
    simp [check_path, hpath, hpre]

theorem find_packages_aux (root : Path) :
    ∀ (l : List RawPackage) (acc : PackageTrie) (e : Path × Package),
      e ∈ l.foldl (find_packages_step root) acc →
      e ∈ acc ∨ ∃ rp ∈ l, e.1 = pathParent rp.manifest_path ∧
        e.2 = { name := rp.name, manifest := rp.manifest_path,
                dependencies :=
                  ((rp.dependencies.filter (fun x => check_path root x.path)).map
                    (fun x => x.path.getD [])) } := by
  intro l
  induction l with
  | nil =>
    intro acc e he
    exact Or.inl he
  | cons rp rest ih =>
    intro acc e he
    rw [List.foldl_cons] at he
    rcases ih (find_packages_step root acc rp) e he with h1 | ⟨rp', hrp', h2, h3⟩
    · rcases trie_insert_mem _ _ _ _ h1 with h2 | h2
      · exact Or.inl h2
      · refine Or.inr ⟨rp, List.mem_cons_self _ _, ?_, ?_⟩
        · rw [h2]
        · rw [h2]
    · exact Or.inr ⟨rp', List.mem_cons_of_mem _ hrp', h2, h3⟩

/-- Claim C8: every entry of the package graph built by `find_packages`
is keyed by its package's manifest's parent directory, and its
`dependencies` field holds exactly the declared dependency paths that are
present and prefixed by the workspace root (src/cargo.rs:12-51). -/
theorem find_packages_spec (root : Path) (metadata : List RawPackage) :
    ∀ e ∈ find_packages root metadata,
      ∃ rp ∈ metadata, e.1 = pathParent rp.manifest_path ∧
        e.2.name = rp.name ∧ e.2.manifest = rp.manifest_path ∧
        ∀ p : Path, p ∈ e.2.dependencies ↔
          ∃ d ∈ rp.dependencies, d.path = some p ∧ root.isPrefixOf p = true := by
  intro e he
  rcases find_packages_aux root metadata [] e he with h | ⟨rp, hrp, h1, h2⟩
  · cases h
  · refine ⟨rp, hrp, h1, by rw [h2], by rw [h2], ?_⟩
    intro p
    rw [h2]
    exact mem_filtered_deps root rp.dependencies p

/-- Witness for claim C8 on a one-member workspace whose package declares
one internal dependency (kept), one dependency outside the root (dropped)
and one registry dependency without a path (dropped). -/
theorem find_packages_spec_witness :
    ∃ rp ∈ [sample_raw_pkg],
      sample_pkg_entry.1 = pathParent rp.manifest_path ∧
      sample_pkg_entry.2.name = rp.name ∧
      sample_pkg_entry.2.manifest = rp.manifest_path ∧
      ∀ p : Path, p ∈ sample_pkg_entry.2.dependencies ↔
        ∃ d ∈ rp.dependencies, d.path = some p ∧ ["/", "r"].isPrefixOf p = true :=
  find_packages_spec ["/", "r"] [sample_raw_pkg] sample_pkg_entry (by decide)

theorem propagate_step_fst_subset (P : PackageTrie) (root : Path) (st : ResolveState)
    (e : Path × Package) : st.1 ⊆ (propagate_step P root st e).1 := by
  unfold propagate_step
  by_cases h : e.2.dependencies.any (fun x => decide (x ∈ st.1))
  · rw [if_pos h]
    cases hma : get_ancestor_value P (pathJoin root e.1) with
    | some package => simp [hma, Finset.subset_insert]
    | none => simp [hma]
  · rw [if_neg h]

theorem propagate_foldl_fst_subset (P : PackageTrie) (root : Path) :
    ∀ (l : List (Path × Package)) (st : ResolveState),
      st.1 ⊆ (l.foldl (propagate_step P root) st).1 := by
  intro l
  induction l with
  | nil => intro st; exact Finset.Subset.refl _
  | cons e rest ih =>
    intro st
    rw [List.foldl_cons]
    exact Finset.Subset.trans (propagate_step_fst_subset P root st e)
      (ih (propagate_step P root st e))

theorem propagate_pass_fst_subset (P : PackageTrie) (root : Path) (st : ResolveState) :
    st.1 ⊆ (propagate_pass P root st).1 :=
  propagate_foldl_fst_subset P root P st

theorem propagate_step_fst_bound (P : PackageTrie) (root : Path) (st : ResolveState)
    (e : Path × Package) :
    (propagate_step P root st e).1 ⊆ insert (pathJoin root e.1) st.1 := by
  unfold propagate_step
  by_cases h : e.2.dependencies.any (fun x => decide (x ∈ st.1))
  · rw [if_pos h]
    cases hma : get_ancestor_value P (pathJoin root e.1) with
    | some package => simp [hma]
    | none => simp [hma, Finset.subset_insert]
  · rw [if_neg h]
    exact Finset.subset_insert _ _

theorem propagate_foldl_fst_bound (P : PackageTrie) (root : Path) :
    ∀ (l : List (Path × Package)) (st : ResolveState),
      (l.foldl (propagate_step P root) st).1 ⊆
        st.1 ∪ (l.map (fun e => pathJoin root e.1)).toFinset := by
  intro l
  induction l with
  | nil =>
    intro st
    simp
  | cons e rest ih =>
    intro st
    rw [List.foldl_cons]
    refine Finset.Subset.trans (ih (propagate_step P root st e)) ?_
    intro x hx
    rcases Finset.mem_union.mp hx with h1 | h1
    · rcases Finset.mem_insert.mp (propagate_step_fst_bound P root st e h1) with rfl | h2
      · rw [List.map_cons, List.toFinset_cons]
        exact Finset.mem_union_right _ (Finset.mem_insert_self _ _)
      · exact Finset.mem_union_left _ h2
    · rw [List.map_cons, List.toFinset_cons]
      exact Finset.mem_union_right _ (Finset.mem_insert_of_mem h1)

theorem propagate_pass_fst_bound (P : PackageTrie) (root : Path) (st : ResolveState) :
    (propagate_pass P root st).1 ⊆ st.1 ∪ package_dir_keys P root :=
  propagate_foldl_fst_bound P root P st

theorem propagate_step_fst_congr (P : PackageTrie) (root : Path) (e : Path × Package)
    (st st' : ResolveState) (h : st.1 = st'.1) :
    (propagate_step P root st e).1 = (propagate_step P root st' e).1 := by
  unfold propagate_step
  have hcond : (e.2.dependencies.any (fun x => decide (x ∈ st.1))) =
      (e.2.dependencies.any (fun x => decide (x ∈ st'.1))) := by rw [h]
  by_cases hc : e.2.dependencies.any (fun x => decide (x ∈ st.1))
  · rw [if_pos hc, if_pos (hcond ▸ hc)]
    cases hma : get_ancestor_value P (pathJoin root e.1) with
    | some package => simp [hma, h]
    | none => simp [hma, h]
  · rw [if_neg hc, if_neg (hcond ▸ hc)]
    exact h

theorem propagate_foldl_fst_congr (P : PackageTrie) (root : Path) :
    ∀ (l : List (Path × Package)) (st st' : ResolveState), st.1 = st'.1 →
      (l.foldl (propagate_step P root) st).1 = (l.foldl (propagate_step P root) st').1 := by
  intro l
  induction l with
  | nil => intro st st' h; exact h
  | cons e rest ih =>
    intro st st' h
    rw [List.foldl_cons, List.foldl_cons]
    exact ih _ _ (propagate_step_fst_congr P root e st st' h)

theorem propagate_pass_fst_congr (P : PackageTrie) (root : Path)
    (st st' : ResolveState) (h : st.1 = st'.1) :
    (propagate_pass P root st).1 = (propagate_pass P root st').1 :=
  propagate_foldl_fst_congr P root P st st' h

theorem propagate_step_of_empty (P : PackageTrie) (root : Path) (e : Path × Package)
    (st : ResolveState) (h : st.1 = ∅) : propagate_step P root st e = st := by
  unfold propagate_step
  have : (e.2.dependencies.any (fun x => decide (x ∈ st.1))) = false := by
    simp [h]
  rw [this]
  simp

theorem propagate_pass_of_empty (P : PackageTrie) (root : Path) (st : ResolveState)
    (h : st.1 = ∅) : (propagate_pass P root st).1 = st.1 := by
  unfold propagate_pass
  have hl : ∀ l : List (Path × Package), l.foldl (propagate_step P root) st = st := by
    intro l
    induction l with
    | nil => rfl
    | cons e rest ih =>
      rw [List.foldl_cons, propagate_step_of_empty P root e st h]
      exact ih
  rw [hl P]

theorem closure_go_stable (P : PackageTrie) (root : Path) :
    ∀ (fuel prev : Nat) (st : ResolveState),
      (package_dir_keys P root \ st.1).card + 1 < fuel →
      (prev = st.1.card → (propagate_pass P root st).1 = st.1) →
      (propagate_pass P root (closure_go P root fuel prev st)).1 =
        (closure_go P root fuel prev st).1 := by
  intro fuel
  induction fuel with
  | zero => intro prev st hf hp; omega
  | succ f ih =>
    intro prev st hf hp
    by_cases h : prev = st.1.card
    · rw [closure_go_exit P root _ _ _ h]
      exact hp h
    · have hstep : closure_go P root (f + 1) prev st =
          closure_go P root f st.1.card (propagate_pass P root st) := by
        simp [closure_go, h]
      rw [hstep]
      by_cases hstable : (propagate_pass P root st).1 = st.1
      · rw [closure_go_exit P root f _ _ (by rw [hstable])]
        exact propagate_pass_fst_congr P root (propagate_pass P root st) st hstable
      · have hmono : st.1 ⊆ (propagate_pass P root st).1 :=
          propagate_pass_fst_subset P root st
        have hbound : (propagate_pass P root st).1 ⊆ st.1 ∪ package_dir_keys P root :=
          propagate_pass_fst_bound P root st
        have hss : st.1 ⊂ (propagate_pass P root st).1 :=
          Finset.ssubset_iff_subset_ne.mpr ⟨hmono, fun hEq => hstable hEq.symm⟩
        obtain ⟨x, hxp, hxs⟩ := Finset.exists_of_ssubset hss
        have hxk : x ∈ package_dir_keys P root := by
          rcases Finset.mem_union.mp (hbound hxp) with h1 | h1
          · exact absurd h1 hxs
          · exact h1
        apply ih
        · have hsub : package_dir_keys P root \ (propagate_pass P root st).1 ⊆
              package_dir_keys P root \ st.1 :=
            Finset.sdiff_subset_sdiff (Finset.Subset.refl _) hmono
        -- the freshly added key x shows the difference set strictly shrinks
          have hssd : package_dir_keys P root \ (propagate_pass P root st).1 ⊂
              package_dir_keys P root \ st.1 := by
            refine (Finset.ssubset_iff_of_subset hsub).mpr ⟨x, ?_, ?_⟩
            · exact Finset.mem_sdiff.mpr ⟨hxk, hxs⟩
            · intro hcontra
              exact (Finset.mem_sdiff.mp hcontra).2 hxp
          have := Finset.card_lt_card hssd
          omega
        · intro hcard
          exact absurd ((Finset.eq_of_subset_of_card_le hmono (le_of_eq hcard.symm)).symm)
            hstable

/-- Claim C9: the propagation loop of main.rs:168-185 terminates on every
finite package graph and seed set: each pass only grows `changed_packages`
(monotone), everything it adds comes from the finite set of root-joined
package directory keys (bounded), and the computed resolution is a state
the loop's exit condition holds at — one further full pass adds nothing. -/
theorem propagation_loop_terminates (packages : PackageTrie) (root : Path)
    (considered_files : List Path) :
    (∀ st : ResolveState, st.1 ⊆ (propagate_pass packages root st).1) ∧
    (∀ st : ResolveState,
      (propagate_pass packages root st).1 ⊆ st.1 ∪ package_dir_keys packages root) ∧
    (propagate_pass packages root (resolve_changed packages root considered_files)).1 =
      (resolve_changed packages root considered_files).1 := by
  refine ⟨fun st => propagate_pass_fst_subset packages root st,
    fun st => propagate_pass_fst_bound packages root st, ?_⟩
  simp only [resolve_changed]
  apply closure_go_stable
  · omega
  · intro h0
    have hempty : (seed_changes packages root considered_files).1 = ∅ :=
      Finset.card_eq_zero.mp h0.symm
    exact propagate_pass_of_empty packages root _ hempty

end DeltaCmd
